import Mathlib

/-!
Shallow embedding of `heron_extract/cdr2edc/dfbuilder.py` (databuilder).

The module builds SQL queries over an i2b2 star schema and copies the
results into a destination store.  We model the relational semantics of
the generated queries over lists of rows, string manipulation over
`List Char`, and the DDL side effects of the export as an explicit state
machine.  Each definition is translated from the named Python function.
-/

set_option autoImplicit false

namespace DFBuilder

/-- The i2b2 path separator, Python `bs = '\\'` in `I2B2MetaData.keys_to_paths`. -/
def bs : Char := '\\'

/-- Python `str.split(sep)` for a one-character separator: splits at every
occurrence, keeping empty segments (`''.split(sep) = ['']`). -/
def splitChar (sep : Char) : List Char → List (List Char)
  | [] => [[]]
  | c :: cs =>
    if c = sep then [] :: splitChar sep cs
    else
      match splitChar sep cs with
      | [] => [[c]]
      | p :: ps => (c :: p) :: ps

/-- Python `sep.join(parts)` for a one-character separator. -/
def joinSep (sep : Char) : List (List Char) → List Char
  | [] => []
  | [p] => p
  | p :: ps => p ++ sep :: joinSep sep ps

/-- Function `I2B2MetaData.keys_to_paths`: for each key,
`bs + bs.join(key.split(bs)[3:])`. -/
def keys_to_paths (keys : List (List Char)) : List (List Char) :=
  keys.map (fun key => bs :: joinSep bs ((splitChar bs key).drop 3))

/-- SQL `LIKE` pattern matching: `%` matches any sequence, `_` any single
character; a character preceded by the escape character (when one is given,
as in `ESCAPE '|'`) is matched literally.  `likeMatch esc pattern text`. -/
def likeMatch (esc : Option Char) : List Char → List Char → Bool
  | [], [] => true
  | [], _ :: _ => false
  | p :: ps, ts =>
    if some p = esc then
      match ps, ts with
      | q :: qs, c :: cs => decide (q = c) && likeMatch esc qs cs
      | _, _ => false
    else if p = '%' then
      likeMatch esc ps ts ||
        (match ts with
         | [] => false
         | _ :: ts2 => likeMatch esc (p :: ps) ts2)
    else
      match ts with
      | [] => false
      | c :: cs => decide (p = '_' ∨ p = c) && likeMatch esc ps cs
termination_by pat ts => (pat.length, ts.length)

/-- A row of the staging table `global_temp_fact_param_table`:
`char_param1` holds the resolved concept path, `char_param2` the
display name (`DataExtract._save_concepts`). -/
structure StagingRow where
  char_param1 : List Char
  char_param2 : List Char
deriving DecidableEq

/-- The `concepts` job field: parallel `names` and `keys` lists. -/
structure Concepts where
  names : List (List Char)
  keys : List (List Char)

/-- The bind rows prepared by `DataExtract._save_concepts`:
`[dict(name=name, path=path) for (path, name) in zip(paths, names)]`
with `paths = I2B2MetaData.keys_to_paths(concepts['keys'])`; the insert
maps `path` to `char_param1` and `name` to `char_param2`. -/
def save_concepts_bind (c : Concepts) : List StagingRow :=
  ((keys_to_paths c.keys).zip c.names).map (fun pn => ⟨pn.1, pn.2⟩)

/-- The staging step shared by `term_info` and `patient_data`
(`DataExtract.__init__`): `account.execute(tmp.delete())`, then
`account.execute(ins, bind)` only when `len(bind) > 0`.  `prev` is the
staging-table contents left by any previous call. -/
def stage (prev : List StagingRow) (c : Concepts) : List StagingRow :=
  let bind := save_concepts_bind c
  let afterDelete : List StagingRow := []
  if bind.length > 0 then afterDelete ++ bind else afterDelete

/-- A row of `concept_dimension` (the columns `_term_query` selects). -/
structure CdRow where
  concept_path : List Char
  concept_cd : List Char
  name_char : List Char
deriving DecidableEq

/-- A row of `modifier_dimension` (the columns `_term_query` selects). -/
structure MdRow where
  modifier_path : List Char
  modifier_cd : List Char
  name_char : List Char
deriving DecidableEq

/-- First query of `DataExtract._term_query`: `SELECT DISTINCT
cd.concept_path, cd.concept_cd, cd.name_char FROM tmp JOIN cd ON
cd.concept_path LIKE (tmp.char_param1 || '%') ESCAPE '|'`. -/
def q_cd (tmp : List StagingRow) (cd : List CdRow) : List CdRow :=
  (tmp.flatMap (fun s =>
    cd.filter (fun r =>
      likeMatch (some '|') (s.char_param1 ++ ['%']) r.concept_path))).dedup

/-- Second query of `DataExtract._term_query`: `SELECT DISTINCT
md.modifier_path, md.modifier_cd, md.name_char FROM tmp JOIN md ON
tmp.char_param1 LIKE md.modifier_path` (no appended `%`, no escape). -/
def q_md (tmp : List StagingRow) (md : List MdRow) : List MdRow :=
  (tmp.flatMap (fun s =>
    md.filter (fun r =>
      likeMatch none r.modifier_path s.char_param1))).dedup

/-- Modelled from the spec wording of claim C2 (for comparison with
`q_md`): the rows "for which the staged path begins with the
dictionary's modifier path (a prefix match)". -/
def q_md_claimed (tmp : List StagingRow) (md : List MdRow) : List MdRow :=
  (tmp.flatMap (fun s =>
    md.filter (fun r =>
      r.modifier_path.isPrefixOf s.char_param1))).dedup

/-- A row of `observation_fact` (the columns needed here; the query
selects all of `f`'s columns). -/
structure FactRow where
  encounter_num : Int
  patient_num : Int
  concept_cd : List Char
  start_date : Int
deriving DecidableEq

/-- A row of `qt_patient_set_collection`. -/
structure PsetRow where
  result_instance_id : Int
  patient_num : Int
deriving DecidableEq

/-- The `ins` query of `DataExtract.patient_data_queries`: `INSERT INTO
query_global_temp (concept_cd) SELECT DISTINCT tq.concept_cd FROM (q_cd) tq`. -/
def query_global_temp_rows (tmp : List StagingRow) (cd : List CdRow) :
    List (List Char) :=
  ((q_cd tmp cd).map (fun r => r.concept_cd)).dedup

/-- The `sel` query of `DataExtract.patient_data_queries`: `SELECT f.* FROM
observation_fact f JOIN query_global_temp ON f.concept_cd =
query_global_temp.concept_cd JOIN qt_patient_set_collection pset ON
pset.patient_num = f.patient_num WHERE pset.result_instance_id = :id`. -/
def s_facts (facts : List FactRow) (code_tmp : List (List Char))
    (pset : List PsetRow) (rid : Int) : List FactRow :=
  facts.flatMap (fun f =>
    (code_tmp.filter (fun c => decide (c = f.concept_cd))).flatMap (fun _ =>
      (pset.filter (fun p =>
        decide (p.patient_num = f.patient_num ∧
          p.result_instance_id = rid))).map (fun _ => f)))

/-- A row of `visit_dimension` (the columns `patients_query` aggregates;
the outer select returns all of `vd`'s columns). -/
structure VisitRow where
  encounter_num : Int
  patient_num : Int
  start_date : Int
deriving DecidableEq

/-- SQL `max` over the values of one (nonempty) group. -/
def listMax : List Int → Int
  | [] => 0
  | x :: xs => xs.foldl max x

/-- SQL `SELECT key, max(val) ... GROUP BY key` over a list of rows. -/
def groupMax {α : Type} [DecidableEq α] (rows : List α) (key : α → Int)
    (val : α → Int) : List (Int × Int) :=
  ((rows.map key).dedup).map (fun k =>
    (k, listMax ((rows.filter (fun r => decide (key r = k))).map val)))

/-- The `FROM` of the `last` subquery in `DataExtract.patients_query`:
`visit_dimension vd JOIN patient_dimension pd ON pd.patient_num =
vd.patient_num JOIN qt_patient_set_collection pset ON pset.patient_num =
pd.patient_num WHERE pset.result_instance_id = :rid`. -/
def lastRows (vd : List VisitRow) (pd : List Int) (pset : List PsetRow)
    (rid : Int) : List VisitRow :=
  vd.flatMap (fun v =>
    (pd.filter (fun p => decide (p = v.patient_num))).flatMap (fun _ =>
      (pset.filter (fun q =>
        decide (q.patient_num = v.patient_num ∧
          q.result_instance_id = rid))).map (fun _ => v)))

/-- The `last` subquery: `SELECT vd.patient_num, max(vd.start_date) AS
last_visit ... GROUP BY vd.patient_num`; entries are
`(patient_num, last_visit)`. -/
def last_q (vd : List VisitRow) (pd : List Int) (pset : List PsetRow)
    (rid : Int) : List (Int × Int) :=
  groupMax (lastRows vd pd pset rid) (fun v => v.patient_num)
    (fun v => v.start_date)

/-- The `FROM` of the `arb_visit` subquery: `visit_dimension vd JOIN last
ON vd.patient_num = last.patient_num AND vd.start_date = last.last_visit`. -/
def arbRows (vd : List VisitRow) (last : List (Int × Int)) : List VisitRow :=
  vd.flatMap (fun v =>
    (last.filter (fun l =>
      decide (v.patient_num = l.1 ∧ v.start_date = l.2))).map (fun _ => v))

/-- The `arb_visit` subquery: `SELECT max(vd.encounter_num) AS
encounter_num, vd.patient_num ... GROUP BY vd.patient_num`; entries are
`(patient_num, encounter_num)`. -/
def arb_visit_q (vd : List VisitRow) (last : List (Int × Int)) :
    List (Int × Int) :=
  groupMax (arbRows vd last) (fun v => v.patient_num)
    (fun v => v.encounter_num)

/-- The outer `enc_q` of `DataExtract.patients_query`: `SELECT vd.* FROM
visit_dimension vd JOIN arb_visit ON arb_visit.encounter_num =
vd.encounter_num`. -/
def enc_join (vd : List VisitRow) (arb : List (Int × Int)) : List VisitRow :=
  vd.flatMap (fun v =>
    (arb.filter (fun a => decide (a.2 = v.encounter_num))).map (fun _ => v))

/-- The full encounter query returned by `DataExtract.patients_query`. -/
def enc_q (vd : List VisitRow) (pd : List Int) (pset : List PsetRow)
    (rid : Int) : List VisitRow :=
  enc_join vd (arb_visit_q vd (last_q vd pd pset rid))

/-- Structural state of the destination store: the names of the tables
and views that currently exist. -/
structure DBState where
  tables : List String
  views : List String
deriving DecidableEq

/-- The list `DataExtract.data_tables`, the tables mirrored by `copy_star_schema`. -/
def data_tables : List String :=
  ["patient_dimension", "visit_dimension", "concept_dimension",
   "modifier_dimension", "observation_fact"]

/-- Step `DataDest.init_tables`: `dest_star.drop_all` then `dest_star.create_all`
(both with SQLAlchemy's default `checkfirst=True`), over exactly the five
`data_tables`.  The per-table `fd.create_unpacked_view` calls live in module
`sqla_float_date`, which is not under src; modelled from the spec (§4.7
SchemaCreate: "drop-if-exists then create"), they replace their views and
have no structural effect we need to track. -/
def init_tables (s : DBState) : DBState :=
  { s with tables :=
      s.tables.filter (fun t => decide (t ∉ data_tables)) ++ data_tables }

/-- Step `DataDest.export_job`: `jobt.drop(checkfirst=True)` then
`jobt.create()` then a row insert. -/
def export_job_step (s : DBState) : DBState :=
  { s with tables := s.tables.filter (fun t => decide (t ≠ "job")) ++ ["job"] }

/-- Step `DataDest.export_terms`, DDL part: `v.create(bind=dest_db)` with no
preceding drop and no `checkfirst`, so it fails when the `variable` table
already exists. -/
def export_terms_step (s : DBState) : Except String DBState :=
  if "variable" ∈ s.tables then Except.error "table variable already exists"
  else Except.ok { s with tables := s.tables ++ ["variable"] }

/-- Step `DataDest.export_summary`, DDL part: `create view data_summary as ...`
with no preceding drop, so it fails when the view already exists. -/
def export_summary_step (s : DBState) : Except String DBState :=
  if "data_summary" ∈ s.views then
    Except.error "view data_summary already exists"
  else Except.ok { s with views := s.views ++ ["data_summary"] }

/-- Method `DataDest.export`: `init_tables`, `export_job`, `export_data` (DML
only), `export_terms`, `export_patients` (DML only), `export_summary`. -/
def exportDB (s : DBState) : Except String DBState :=
  match export_terms_step (export_job_step (init_tables s)) with
  | Except.error e => Except.error e
  | Except.ok s4 => export_summary_step s4

/-- Two successive runs of `DataDest.export` against the same destination. -/
def exportTwice (s : DBState) : Except String DBState :=
  match exportDB s with
  | Except.error e => Except.error e
  | Except.ok s1 => exportDB s1

/-- An empty destination store. -/
def emptyDB : DBState := { tables := [], views := [] }

/-- Python exceptions as seen by `BuilderApp.__call__`: `IOError` versus
anything else (e.g. a database `OperationalError` during transfer). -/
inductive PyErr where
  | ioError (msg : String)
  | otherError (msg : String)
deriving DecidableEq

/-- Method `BuilderApp.__call__`: runs the export inside
`try: ... except IOError as ex: return ['error:', str(ex)]`; `run` is the
outcome of `dest.export(DataExtract(...))` and `Except.ok out` carries
`json.dumps(out)`. -/
def builder_call (run : Except PyErr String) : Except PyErr (List String) :=
  match run with
  | Except.ok out => Except.ok [out]
  | Except.error (PyErr.ioError m) => Except.ok ["error:", m]
  | Except.error e => Except.error e

/-- A `(path, code, label)` result row of a term query, as streamed by the
dictionary copies in `DataDest.export_terms`. -/
abbrev TermTriple : Type := List Char × List Char × List Char

/-- Modelled from the spec: `table_copy.copy_in_chunks` (module
`table_copy` is not under src); per §4.6 the ChunkedCopier appends the
source rows to the destination table in source order. -/
def copy_in_chunks {α : Type} (dest : List α) (source : List α) : List α :=
  dest ++ source

/-- The two dictionary copies in `DataDest.export_terms`:
`tc.copy_in_chunks(dest_db, result_cd, cd, 'concept_dimension', [], values=values)`
and `tc.copy_in_chunks(dest_db, result_cd, md, 'modifier_dimension', [])` —
both calls pass `result_cd`; `result_md` is never used.  Returns the final
(concept table, modifier table) contents. -/
def export_terms_copies (cd_table md_table : List TermTriple)
    (result_cd result_md : List TermTriple) :
    List TermTriple × List TermTriple :=
  (copy_in_chunks cd_table result_cd, copy_in_chunks md_table result_cd)

/-- The suffix after the last `']'` that is reachable without crossing a
newline (regex `.` does not match `'\n'`); `none` when no `']'` is
reachable.  This is where a greedy `.*\]` ends. -/
def afterLastRB : List Char → Option (List Char)
  | [] => none
  | c :: rest =>
    if c = '\n' then none
    else
      match afterLastRB rest with
      | some r => some r
      | none => if c = ']' then some rest else none

/-- Function `strip_counts(txt)`: Python `re.sub(r' \[\d+.*\]', '', txt)`.  The
scan looks for a space, `'['`, a digit, and a later reachable `']'`; a
match extends greedily to the last reachable `']'` and is removed, and
scanning resumes after it. -/
def stripCounts : List Char → List Char
  | ' ' :: '[' :: d :: rest =>
    if d.isDigit then
      match h : afterLastRB rest with
      | some r => stripCounts r
      | none => ' ' :: stripCounts ('[' :: d :: rest)
    else ' ' :: stripCounts ('[' :: d :: rest)
  | c :: rest => c :: stripCounts rest
  | [] => []
termination_by cs => cs.length
decreasing_by
  all_goals simp_wf
  all_goals try omega
  have key : ∀ (cs r : List Char), afterLastRB cs = some r →
      r.length < cs.length := by
    intro cs
    induction cs with
    | nil => intro r hr; simp [afterLastRB] at hr
    | cons c cs ih =>
      intro r hr
      by_cases hc : c = '\n'
      · simp [afterLastRB, hc] at hr
      · simp only [afterLastRB, if_neg hc] at hr
        cases hcs : afterLastRB cs with
        | some r2 =>
          rw [hcs] at hr
          cases hr
          have := ih _ hcs
          simp
          omega
        | none =>
          rw [hcs] at hr
          by_cases hrb : c = ']'
          · rw [if_pos hrb] at hr
            cases hr
            simp
          · rw [if_neg hrb] at hr
            exact absurd hr (by simp)
  have := key _ _ h
  omega

/-- Whether the text contains a `strip_counts` match start: a space,
`'['`, a digit, with a `']'` reachable without crossing a newline. -/
def hasCount : List Char → Bool
  | [] => false
  | c :: rest =>
    (match c, rest with
     | ' ', '[' :: d :: rest2 => d.isDigit && (afterLastRB rest2).isSome
     | _, _ => false) || hasCount rest

/-- Whether the text is free of any space-bracket-digit triple (so a
`strip_counts` match can never start inside it). -/
def noStartTriple : List Char → Bool
  | [] => true
  | c :: rest =>
    (match c, rest with
     | ' ', '[' :: d :: _ => !d.isDigit
     | _, _ => true) && noStartTriple rest

/-- Function `send_completion_mail`, recipient computation: the recipient derived
from `'{0}@{1}'.format(username, domain)` is immediately overwritten with
`'bos@uthscsa.edu'`, and `Emailer(smtp, lambda: [recipient])` receives the
one-element list of the overwritten value. -/
def send_completion_recipients (username domain : String) : List String :=
  let recipient := username ++ "@" ++ domain
  let recipient := "bos@uthscsa.edu"
  [recipient]

/-- A patient's maximum visit start time over `visit_dimension` (the
quantity the claim calls "that patient's maximum visit start time"). -/
def maxStartOf (vd : List VisitRow) (p : Int) : Int :=
  listMax ((vd.filter (fun v => decide (v.patient_num = p))).map
    (fun v => v.start_date))

/-- The maximum encounter id among a patient's visits whose start time is
the patient's maximum visit start time (the claim's tie-break value). -/
def maxEncAt (vd : List VisitRow) (p : Int) : Int :=
  listMax ((vd.filter (fun v =>
    decide (v.patient_num = p ∧ v.start_date = maxStartOf vd p))).map
    (fun v => v.encounter_num))

lemma splitChar_no_sep {sep : Char} {p : List Char} (h : sep ∉ p) :
    splitChar sep p = [p] := by
  induction p with
  | nil => rfl
  | cons c cs ih =>
    have hc : ¬ c = sep := fun hcs => h (hcs ▸ List.mem_cons_self c cs)
    have hcs : sep ∉ cs := fun hm => h (List.mem_cons_of_mem _ hm)
    simp [splitChar, hc, ih hcs]

lemma splitChar_append_sep {sep : Char} {p t : List Char} (h : sep ∉ p) :
    splitChar sep (p ++ sep :: t) = p :: splitChar sep t := by
  induction p with
  | nil => simp [splitChar]
  | cons c cs ih =>
    have hc : ¬ c = sep := fun hcs => h (hcs ▸ List.mem_cons_self c cs)
    have hcs : sep ∉ cs := fun hm => h (List.mem_cons_of_mem _ hm)
    simp only [List.cons_append, splitChar, if_neg hc, List.append_eq, ih hcs]

lemma joinSep_cons_of_ne_nil {sep : Char} {p : List Char}
    {ps : List (List Char)} (h : ps ≠ []) :
    joinSep sep (p :: ps) = p ++ sep :: joinSep sep ps := by
  cases ps with
  | nil => exact absurd rfl h
  | cons q qs => rfl

/-- Round trip: splitting a separator-join recovers the original segments,
provided no segment contains the separator. -/
lemma splitChar_joinSep {sep : Char} (parts : List (List Char))
    (hne : parts ≠ []) (hfree : ∀ p ∈ parts, sep ∉ p) :
    splitChar sep (joinSep sep parts) = parts := by
  induction parts with
  | nil => exact absurd rfl hne
  | cons p ps ih =>
    cases ps with
    | nil =>
      exact splitChar_no_sep (hfree p (List.mem_cons_self _ _))
    | cons q qs =>
      rw [joinSep_cons_of_ne_nil (by simp)]
      rw [splitChar_append_sep (hfree p (List.mem_cons_self _ _))]
      rw [ih (by simp) (fun r hr => hfree r (List.mem_cons_of_mem _ hr))]

end DFBuilder

open DFBuilder

/-- Claim C4: for every sequence of hierarchical keys whose first three
segments form the table-access prefix, `keys_to_paths` returns for each key
exactly the remaining segments rejoined in order with the same separator,
prefixed with the separator; an empty input sequence yields an empty
output sequence. -/
theorem C4_keys_to_paths_strips_prefix
    (pre : List (List Char)) (rests : List (List (List Char)))
    (h3 : pre.length = 3)
    (hpre : ∀ p ∈ pre, bs ∉ p)
    (hrest : ∀ r ∈ rests, ∀ p ∈ r, bs ∉ p) :
    keys_to_paths (rests.map (fun r => joinSep bs (pre ++ r)))
      = rests.map (fun r => bs :: joinSep bs r)
    ∧ keys_to_paths [] = [] := by
  constructor
  · unfold keys_to_paths
    rw [List.map_map]
    apply List.map_congr_left
    intro r hr
    have hne : pre ++ r ≠ [] := by
      intro h
      have := congrArg List.length h
      simp [h3] at this
    have hfree : ∀ p ∈ pre ++ r, bs ∉ p := by
      intro p hp
      rcases List.mem_append.mp hp with h | h
      · exact hpre p h
      · exact hrest r hr p h
    simp only [Function.comp]
    rw [splitChar_joinSep (pre ++ r) hne hfree, ← h3, List.drop_left]
  · rfl

/-- Witness for C4 at a concrete input: key segments
`['', '', "t1"] ++ ["a", "b", ""]`, i.e. the key `\\t1\a\b\`,
resolving to the path `\a\b\`. -/
theorem C4_keys_to_paths_strips_prefix_witness :
    keys_to_paths
        ([[[('a' : Char)], ['b'], []]].map
          (fun r => joinSep bs ([[], [], ['t', '1']] ++ r)))
      = [[[('a' : Char)], ['b'], []]].map (fun r => bs :: joinSep bs r)
    ∧ keys_to_paths [] = [] :=
  C4_keys_to_paths_strips_prefix [[], [], ['t', '1']] [[['a'], ['b'], []]]
    (by decide) (by decide) (by decide)

/-- Claim C10: for every username and every email configuration, the
completion-notification recipient list actually used by
`send_completion_mail` is exactly `['bos@uthscsa.edu']`: the recipient
computed from the requesting username and the configured user domain is
overwritten by this fixed address before the mail is composed. -/
theorem C10_recipient_list_fixed (username domain : String) :
    send_completion_recipients username domain = ["bos@uthscsa.edu"] := rfl

/-- Counterexample to claim C7: a non-`IOError` failure (e.g. a database
error raised during transfer) is not converted into a structured failure
result by `BuilderApp.__call__` — it propagates past the orchestration
boundary. -/
theorem C7_counterexample :
    builder_call (Except.error (PyErr.otherError "db failure"))
        = Except.error (PyErr.otherError "db failure")
    ∧ ¬ ∃ msgs, builder_call (Except.error (PyErr.otherError "db failure"))
        = Except.ok msgs := by
  constructor
  · rfl
  · rintro ⟨msgs, h⟩
    simp [builder_call] at h

/-- Claim C7 amended: `BuilderApp.__call__` converts exactly the
`IOError`-typed failures into the structured `['error:', message]` result
(and wraps a successful export result); any error of another type
propagates past the orchestration boundary unchanged. -/
theorem C7_amended (m out : String) :
    builder_call (Except.error (PyErr.ioError m)) = Except.ok ["error:", m]
    ∧ builder_call (Except.ok out) = Except.ok [out]
    ∧ builder_call (Except.error (PyErr.otherError m))
        = Except.error (PyErr.otherError m) :=
  ⟨rfl, rfl, rfl⟩

/-- Claim C8 (code bug): at a failing input where the concept-dictionary
and modifier-dictionary query results differ, the `export_terms` copies
feed `result_cd` into the destination modifier table, so it receives the
concept-dictionary rows, not the modifier-dictionary rows. -/
theorem C8_modifier_copy_gets_concept_rows :
    (export_terms_copies [] [] [(['p'], ['c'], ['l'])]
        [(['q'], ['d'], ['m'])]).2 = [(['p'], ['c'], ['l'])]
    ∧ (export_terms_copies [] [] [(['p'], ['c'], ['l'])]
        [(['q'], ['d'], ['m'])]).2 ≠ [(['q'], ['d'], ['m'])]
    ∧ (export_terms_copies [] [] [(['p'], ['c'], ['l'])]
        [(['q'], ['d'], ['m'])]).1 = [(['p'], ['c'], ['l'])] := by
  refine ⟨rfl, ?_, rfl⟩
  decide

/-- Claim C3: for every concept list (including the empty one) and every
previous staging-table contents, the staging step leaves the staging table
containing exactly the (path, display name) rows prepared for the current
call, and an empty key list leaves it empty. -/
theorem C3_stage_exactly_current_rows (prev : List StagingRow) (c : Concepts) :
    stage prev c = save_concepts_bind c
    ∧ (c.keys = [] → stage prev c = []) := by
  have h1 : stage prev c = save_concepts_bind c := by
    unfold stage
    by_cases h : (save_concepts_bind c).length > 0
    · simp [h]
    · have h0 : save_concepts_bind c = [] := by
        rcases Nat.eq_zero_or_pos (save_concepts_bind c).length with h' | h'
        · exact List.length_eq_zero.mp h'
        · exact absurd h' h
      simp [h0]
  refine ⟨h1, fun hk => ?_⟩
  rw [h1]
  unfold save_concepts_bind keys_to_paths
  rw [hk]
  rfl

/-- Claim C1: the final fact selection of `patient_data_queries` returns
exactly the observation-fact rows whose concept code is present in the
staged distinct-code table and whose patient id belongs to the membership
collection for the bound patient-set identifier; for a patient set with
zero members the selection yields zero rows regardless of staged codes. -/
theorem C1_fact_selection (facts : List FactRow) (code_tmp : List (List Char))
    (pset : List PsetRow) (rid : Int) :
    (∀ f : FactRow, f ∈ s_facts facts code_tmp pset rid ↔
      (f ∈ facts ∧ f.concept_cd ∈ code_tmp ∧
        ∃ p ∈ pset, p.patient_num = f.patient_num ∧
          p.result_instance_id = rid))
    ∧ ((∀ p ∈ pset, p.result_instance_id ≠ rid) →
        s_facts facts code_tmp pset rid = []) := by
  have hchar : ∀ f : FactRow, f ∈ s_facts facts code_tmp pset rid ↔
      (f ∈ facts ∧ f.concept_cd ∈ code_tmp ∧
        ∃ p ∈ pset, p.patient_num = f.patient_num ∧
          p.result_instance_id = rid) := by
    intro f
    simp only [s_facts, List.mem_flatMap, List.mem_filter, List.mem_map,
      decide_eq_true_eq]
    constructor
    · rintro ⟨g, hg, c, ⟨⟨hc, hcg⟩, p, ⟨hp, hpg, hpr⟩, rfl⟩⟩
      exact ⟨hg, hcg ▸ hc, p, hp, hpg, hpr⟩
    · rintro ⟨hf, hc, p, hp, hpn, hpr⟩
      exact ⟨f, hf, f.concept_cd, ⟨⟨hc, rfl⟩, p, ⟨hp, hpn, hpr⟩, rfl⟩⟩
  refine ⟨hchar, fun hzero => ?_⟩
  apply List.eq_nil_iff_forall_not_mem.mpr
  intro f hf
  obtain ⟨-, -, p, hp, -, hpe⟩ := (hchar f).mp hf
  exact hzero p hp hpe

/-- Witness for C1: a fact whose code is staged and whose patient is in
patient set 5 is selected; under the identifier 9, whose membership is
empty, the selection is empty. -/
theorem C1_fact_selection_witness :
    ((⟨1, 10, ['c'], 0⟩ : FactRow) ∈
        s_facts [⟨1, 10, ['c'], 0⟩] [['c']] [⟨5, 10⟩] 5)
    ∧ s_facts [(⟨1, 10, ['c'], 0⟩ : FactRow)] [['c']] [⟨5, 10⟩] 9 = [] :=
  ⟨((C1_fact_selection [⟨1, 10, ['c'], 0⟩] [['c']] [⟨5, 10⟩] 5).1 _).mpr
      (by decide),
    (C1_fact_selection [⟨1, 10, ['c'], 0⟩] [['c']] [⟨5, 10⟩] 9).2 (by decide)⟩

/-- Counterexample to claim C2: a staged path `\a\b\` begins with the
modifier path `\a\`, yet the modifier-dictionary query selects nothing,
because the staged path is matched against the modifier path as a LIKE
pattern with no wildcard appended; the spec-worded query would select the
row. -/
theorem C2_counterexample :
    List.isPrefixOf ['\\', 'a', '\\'] ['\\', 'a', '\\', 'b', '\\'] = true
    ∧ q_md [⟨['\\', 'a', '\\', 'b', '\\'], ['n']⟩]
        [⟨['\\', 'a', '\\'], ['c'], ['l']⟩] = []
    ∧ q_md_claimed [⟨['\\', 'a', '\\', 'b', '\\'], ['n']⟩]
        [⟨['\\', 'a', '\\'], ['c'], ['l']⟩]
        = [⟨['\\', 'a', '\\'], ['c'], ['l']⟩] := by
  refine ⟨by decide, ?_, by decide⟩
  simp [q_md, likeMatch]

lemma likeMatch_none_of_wildcard_free (pat : List Char)
    (hw : ∀ c ∈ pat, c ≠ '%' ∧ c ≠ '_') :
    ∀ text : List Char, likeMatch none pat text = true ↔ pat = text := by
  induction pat with
  | nil =>
    intro text
    cases text with
    | nil => simp [likeMatch]
    | cons c cs => simp [likeMatch]
  | cons p ps ih =>
    intro text
    have hp : p ≠ '%' ∧ p ≠ '_' := hw p (List.mem_cons_self _ _)
    have hps : ∀ c ∈ ps, c ≠ '%' ∧ c ≠ '_' :=
      fun c hc => hw c (List.mem_cons_of_mem _ hc)
    cases text with
    | nil =>
      rw [likeMatch.eq_def]
      simp [hp.1]
    | cons c cs =>
      rw [likeMatch.eq_def]
      simp [hp.1, hp.2, ih hps cs]

/-- Claim C2 amended: the modifier-dictionary query selects the distinct
(path, code, label) rows for which the staged path matches the
dictionary's modifier path interpreted as a SQL LIKE pattern with no
wildcard appended (direction reversed relative to the concept-dictionary
query); in particular, for a modifier path containing no wildcard
character, a row is selected exactly when some staged path equals the
modifier path — not when it merely begins with it. -/
theorem C2_q_md_amended (tmp : List StagingRow) (md : List MdRow) (r : MdRow)
    (hw : ∀ c ∈ r.modifier_path, c ≠ '%' ∧ c ≠ '_') :
    r ∈ q_md tmp md ↔
      r ∈ md ∧ ∃ s ∈ tmp, s.char_param1 = r.modifier_path := by
  simp only [q_md, List.mem_dedup, List.mem_flatMap, List.mem_filter]
  constructor
  · rintro ⟨s, hs, hr, hlike⟩
    exact ⟨hr, s, hs,
      ((likeMatch_none_of_wildcard_free _ hw _).mp hlike).symm⟩
  · rintro ⟨hr, s, hs, heq⟩
    exact ⟨s, hs, hr,
      (likeMatch_none_of_wildcard_free _ hw _).mpr heq.symm⟩

/-- Witness for the amended C2 at a concrete input: with staged path
`\a\` and modifier path `\a\` (wildcard-free), the row is selected
exactly by equality of the two paths. -/
theorem C2_q_md_amended_witness :
    (⟨['\\', 'a', '\\'], ['c'], ['l']⟩ : MdRow)
        ∈ q_md [⟨['\\', 'a', '\\'], ['n']⟩]
            [⟨['\\', 'a', '\\'], ['c'], ['l']⟩]
      ↔ (⟨['\\', 'a', '\\'], ['c'], ['l']⟩ : MdRow)
          ∈ [(⟨['\\', 'a', '\\'], ['c'], ['l']⟩ : MdRow)]
        ∧ ∃ s ∈ [(⟨['\\', 'a', '\\'], ['n']⟩ : StagingRow)],
            s.char_param1 = ['\\', 'a', '\\'] :=
  C2_q_md_amended [⟨['\\', 'a', '\\'], ['n']⟩]
    [⟨['\\', 'a', '\\'], ['c'], ['l']⟩]
    ⟨['\\', 'a', '\\'], ['c'], ['l']⟩ (by decide)

/-- Counterexample to claim C6: running the export twice in succession
against an initially empty destination does not complete both times — the
second run fails when creating the `variable` table, which is never
dropped. -/
theorem C6_counterexample :
    exportTwice emptyDB = Except.error "table variable already exists" := by
  rfl

/-- Claim C6 amended: each run drops and recreates the five star-schema
data tables and the job table, but the `variable` table (and the
`data_summary` view) are created without a preceding drop; hence after any
successful run the `variable` table exists, and a second run against that
destination fails at the variable-table creation instead of completing. -/
theorem C6_export_not_idempotent (s s1 : DBState)
    (h : exportDB s = Except.ok s1) :
    "variable" ∈ s1.tables
    ∧ exportDB s1 = Except.error "table variable already exists" := by
  unfold exportDB at h
  cases hts : export_terms_step (export_job_step (init_tables s)) with
  | error e => rw [hts] at h; simp at h
  | ok s4 =>
    rw [hts] at h
    change export_summary_step s4 = Except.ok s1 at h
    have h4 : "variable" ∈ s4.tables := by
      unfold export_terms_step at hts
      by_cases hv : "variable" ∈ (export_job_step (init_tables s)).tables
      · rw [if_pos hv] at hts; simp at hts
      · rw [if_neg hv] at hts
        injection hts with h'
        rw [← h']
        simp
    have h1t : s1.tables = s4.tables := by
      unfold export_summary_step at h
      by_cases hd : "data_summary" ∈ s4.views
      · rw [if_pos hd] at h; simp at h
      · rw [if_neg hd] at h
        injection h with h'
        rw [← h']
    have hs1 : "variable" ∈ s1.tables := by rw [h1t]; exact h4
    refine ⟨hs1, ?_⟩
    have hnd : ("variable" : String) ∉ data_tables := by decide
    have hnj : ("variable" : String) ≠ "job" := by decide
    have hv2 : "variable" ∈ (export_job_step (init_tables s1)).tables := by
      simp [export_job_step, init_tables, List.mem_filter, List.mem_append,
        hs1, hnd, hnj]
    unfold exportDB
    rw [show export_terms_step (export_job_step (init_tables s1))
        = Except.error "table variable already exists" from by
      unfold export_terms_step
      rw [if_pos hv2]]

/-- Witness for the amended C6: the state left by a successful export from
an empty destination contains the `variable` table, and a second export
from it fails. -/
theorem C6_export_not_idempotent_witness :
    "variable" ∈ (⟨["patient_dimension", "visit_dimension",
        "concept_dimension", "modifier_dimension", "observation_fact",
        "job", "variable"], ["data_summary"]⟩ : DBState).tables
    ∧ exportDB ⟨["patient_dimension", "visit_dimension",
        "concept_dimension", "modifier_dimension", "observation_fact",
        "job", "variable"], ["data_summary"]⟩
      = Except.error "table variable already exists" :=
  C6_export_not_idempotent emptyDB
    ⟨["patient_dimension", "visit_dimension", "concept_dimension",
      "modifier_dimension", "observation_fact", "job", "variable"],
     ["data_summary"]⟩ (by rfl)

lemma noStartTriple_tail {c : Char} {rest : List Char}
    (h : noStartTriple (c :: rest) = true) : noStartTriple rest = true := by
  simp only [noStartTriple, Bool.and_eq_true] at h
  exact h.2

lemma noStartTriple_digit (d : Char) (rest : List Char)
    (h : noStartTriple (' ' :: '[' :: d :: rest) = true) :
    d.isDigit = false := by
  simp only [noStartTriple, Bool.and_eq_true] at h
  simpa using h.1

lemma afterLastRB_append_rb (mid : List Char) (h : '\n' ∉ mid) :
    afterLastRB (mid ++ [']']) = some [] := by
  induction mid with
  | nil => rfl
  | cons c cs ih =>
    have hc : ¬ c = '\n' := fun h' => h (h' ▸ List.mem_cons_self _ _)
    have ih' := ih (fun hm => h (List.mem_cons_of_mem _ hm))
    simp [afterLastRB, hc, ih']

lemma stripCounts_cons_eq (c : Char) (t : List Char)
    (hnm : ∀ d rest, c = ' ' → t = '[' :: d :: rest → d.isDigit = false) :
    stripCounts (c :: t) = c :: stripCounts t := by
  rcases t with _ | ⟨c2, t2⟩
  · exact stripCounts.eq_2 c [] (by intro d r _ h2; cases h2)
  · rcases t2 with _ | ⟨c3, t3⟩
    · refine stripCounts.eq_2 c [c2] ?_
      intro d r _ h2
      simp at h2
    · by_cases h1 : c = ' '
      · by_cases h2 : c2 = '['
        · subst h1; subst h2
          have hd : c3.isDigit = false := hnm c3 t3 rfl rfl
          rw [stripCounts.eq_1, if_neg (by simp [hd])]
        · refine stripCounts.eq_2 c (c2 :: c3 :: t3) ?_
          intro d r _ hr
          injection hr with hh _
          exact h2 hh
      · refine stripCounts.eq_2 c (c2 :: c3 :: t3) ?_
        intro d r hc _
        exact h1 hc

lemma stripCounts_append_scan (d : Char) (tl : List Char) :
    ∀ a : List Char, noStartTriple a = true →
      stripCounts (a ++ ' ' :: '[' :: d :: tl)
        = a ++ stripCounts (' ' :: '[' :: d :: tl) := by
  intro a
  induction a with
  | nil => intro _; simp
  | cons c a2 ih =>
    intro ha
    have ht := noStartTriple_tail ha
    have hnm : ∀ d2 r2, c = ' ' →
        a2 ++ ' ' :: '[' :: d :: tl = '[' :: d2 :: r2 →
        d2.isDigit = false := by
      intro d2 r2 hc hshape
      cases a2 with
      | nil =>
        injection hshape with hh _
        exact absurd hh (by decide)
      | cons c2 a3 =>
        injection hshape with hc2 hrest
        cases a3 with
        | nil =>
          injection hrest with hd2 _
          rw [← hd2]
          decide
        | cons c3 a4 =>
          injection hrest with hd2 _
          subst hc
          subst hc2
          rw [← hd2]
          exact noStartTriple_digit c3 a4 ha
    rw [List.cons_append, stripCounts_cons_eq c _ hnm, ih ht,
      List.cons_append]

lemma stripCounts_head_some (d : Char) (tl r : List Char)
    (hd : d.isDigit = true) (h : afterLastRB tl = some r) :
    stripCounts (' ' :: '[' :: d :: tl) = stripCounts r := by
  rw [stripCounts.eq_1, if_pos hd]
  split
  · next r2 hr2 =>
    rw [h] at hr2
    injection hr2 with h2
    rw [h2]
  · next hn =>
    rw [h] at hn
    simp at hn

/-- Counterexample to claim C9: the label `a [1 b] c` has no bracketed
suffix (it does not even end with `']'`), yet `strip_counts` does not
return it unchanged — the bracketed group in the middle is removed. -/
theorem C9_counterexample :
    (['a', ' ', '[', '1', ' ', 'b', ']', ' ', 'c'].getLast? ≠ some ']')
    ∧ stripCounts ['a', ' ', '[', '1', ' ', 'b', ']', ' ', 'c']
        = ['a', ' ', 'c']
    ∧ stripCounts ['a', ' ', '[', '1', ' ', 'b', ']', ' ', 'c']
        ≠ ['a', ' ', '[', '1', ' ', 'b', ']', ' ', 'c'] := by
  have heval : stripCounts ['a', ' ', '[', '1', ' ', 'b', ']', ' ', 'c']
      = ['a', ' ', 'c'] := by
    simp [stripCounts, afterLastRB]
  refine ⟨by decide, heval, ?_⟩
  rw [heval]
  decide

/-- Claim C9 amended: `strip_counts` removes every occurrence of a space
followed by `'['`, a digit, and a later `']'` (extending greedily to the
last `']'` reachable without crossing a newline), wherever that occurrence
sits in the label — not only as a trailing suffix.  A label containing no
such occurrence is returned unchanged, and for a label consisting of a
clean prefix followed by one trailing bracketed count the prefix alone is
returned (so `broken toe [200 facts]` maps to `broken toe`). -/
theorem C9_strip_counts_amended (l a mid : List Char) (d : Char)
    (h1 : noStartTriple a = true) (h2 : d.isDigit = true)
    (h3 : '\n' ∉ mid) :
    (hasCount l = false → stripCounts l = l)
    ∧ stripCounts (a ++ ' ' :: '[' :: d :: (mid ++ [']'])) = a := by
  constructor
  · induction l using stripCounts.induct with
    | case1 d2 rest hd2 r hr ih =>
      intro hc
      simp only [hasCount, Bool.or_eq_false_iff, Bool.and_eq_false_iff] at hc
      rcases hc.1 with hh | hh
      · rw [hd2] at hh; cases hh
      · rw [hr] at hh; cases hh
    | case2 d2 rest hd2 hn ih =>
      intro hc
      simp only [hasCount, Bool.or_eq_false_iff] at hc
      have hc2 : hasCount ('[' :: d2 :: rest) = false := by
        simp only [hasCount, Bool.or_eq_false_iff]
        exact ⟨rfl, hc.2.2⟩
      rw [stripCounts.eq_1, if_pos hd2]
      split
      · next r2 hr2 =>
        rw [hn] at hr2
        cases hr2
      · next =>
        rw [ih hc2]
    | case3 d2 rest hnd ih =>
      intro hc
      simp only [hasCount, Bool.or_eq_false_iff] at hc
      have hc2 : hasCount ('[' :: d2 :: rest) = false := by
        simp only [hasCount, Bool.or_eq_false_iff]
        exact ⟨rfl, hc.2.2⟩
      rw [stripCounts.eq_1, if_neg hnd, ih hc2]
    | case4 c rest hex ih =>
      intro hc
      simp only [hasCount, Bool.or_eq_false_iff] at hc
      rw [stripCounts.eq_2 c rest hex, ih hc.2]
    | case5 =>
      intro _
      exact stripCounts.eq_3
  · rw [stripCounts_append_scan d (mid ++ [']']) a h1,
      stripCounts_head_some d (mid ++ [']']) [] h2
        (afterLastRB_append_rb mid h3),
      stripCounts.eq_3, List.append_nil]

/-- Witness for the amended C9: `broken toe` is a clean prefix and
`[200 facts]` a trailing bracketed count, so the label maps to
`broken toe`; a label without any such occurrence is unchanged. -/
theorem C9_strip_counts_amended_witness :
    (hasCount ['x'] = false → stripCounts ['x'] = ['x'])
    ∧ stripCounts ("broken toe".data ++ ' ' :: '[' :: '2' ::
        ("00 facts".data ++ [']'])) = "broken toe".data :=
  C9_strip_counts_amended ['x'] "broken toe".data "00 facts".data '2'
    (by decide) (by decide) (by decide)

lemma init_le_foldl_max (a : Int) (l : List Int) : a ≤ l.foldl max a := by
  induction l generalizing a with
  | nil => simp
  | cons c cs ih => exact le_trans (le_max_left a c) (ih (max a c))

lemma le_foldl_max (a x : Int) (l : List Int) (h : x ∈ l) :
    x ≤ l.foldl max a := by
  induction l generalizing a with
  | nil => cases h
  | cons c cs ih =>
    rcases List.mem_cons.mp h with rfl | h2
    · exact le_trans (le_max_right a x) (init_le_foldl_max (max a x) cs)
    · exact ih (max a c) h2

lemma foldl_max_mem (a : Int) (l : List Int) :
    l.foldl max a = a ∨ l.foldl max a ∈ l := by
  induction l generalizing a with
  | nil => left; rfl
  | cons c cs ih =>
    rcases ih (max a c) with h | h
    · rcases max_choice a c with h2 | h2
      · left; rw [List.foldl_cons, h, h2]
      · right; rw [List.foldl_cons, h, h2]; exact List.mem_cons_self _ _
    · right; exact List.mem_cons_of_mem _ h

lemma listMax_mem {l : List Int} (h : l ≠ []) : listMax l ∈ l := by
  cases l with
  | nil => exact absurd rfl h
  | cons x xs =>
    rcases foldl_max_mem x xs with h2 | h2
    · rw [listMax, h2]; exact List.mem_cons_self _ _
    · rw [listMax]; exact List.mem_cons_of_mem _ h2

lemma le_listMax {l : List Int} {x : Int} (h : x ∈ l) : x ≤ listMax l := by
  cases l with
  | nil => cases h
  | cons c cs =>
    rcases List.mem_cons.mp h with rfl | h2
    · exact init_le_foldl_max x cs
    · exact le_foldl_max c x cs h2

lemma listMax_congr {l1 l2 : List Int} (h1 : l1 ≠ [])
    (h : ∀ x, x ∈ l1 ↔ x ∈ l2) : listMax l1 = listMax l2 := by
  have h2 : l2 ≠ [] := by
    cases l1 with
    | nil => exact absurd rfl h1
    | cons c cs =>
      intro hnil
      have := (h c).mp (List.mem_cons_self _ _)
      rw [hnil] at this
      cases this
  exact le_antisymm (le_listMax ((h _).mp (listMax_mem h1)))
    (le_listMax ((h _).mpr (listMax_mem h2)))

lemma mem_lastRows {vd : List VisitRow} {pd : List Int} {pset : List PsetRow}
    {rid : Int} {v : VisitRow} :
    v ∈ lastRows vd pd pset rid ↔
      v ∈ vd ∧ v.patient_num ∈ pd ∧
        ∃ q ∈ pset, q.patient_num = v.patient_num ∧
          q.result_instance_id = rid := by
  simp only [lastRows, List.mem_flatMap, List.mem_filter, List.mem_map,
    decide_eq_true_eq]
  constructor
  · rintro ⟨w, hw, x, ⟨hx, hxw⟩, q, ⟨hq, hq1, hq2⟩, rfl⟩
    exact ⟨hw, hxw ▸ hx, q, hq, hq1, hq2⟩
  · rintro ⟨hw, hpd, q, hq, hq1, hq2⟩
    exact ⟨v, hw, v.patient_num, ⟨hpd, rfl⟩, q, ⟨hq, hq1, hq2⟩, rfl⟩

lemma mem_arbRows {vd : List VisitRow} {last : List (Int × Int)}
    {v : VisitRow} :
    v ∈ arbRows vd last ↔
      v ∈ vd ∧ ∃ l ∈ last, v.patient_num = l.1 ∧ v.start_date = l.2 := by
  simp only [arbRows, List.mem_flatMap, List.mem_filter, List.mem_map,
    decide_eq_true_eq]
  constructor
  · rintro ⟨w, hw, l, ⟨hl, hl1, hl2⟩, rfl⟩
    exact ⟨hw, l, hl, hl1, hl2⟩
  · rintro ⟨hw, l, hl, hl1, hl2⟩
    exact ⟨v, hw, l, ⟨hl, hl1, hl2⟩, rfl⟩

lemma mem_enc_join {vd : List VisitRow} {arb : List (Int × Int)}
    {v : VisitRow} :
    v ∈ enc_join vd arb ↔
      v ∈ vd ∧ ∃ a ∈ arb, a.2 = v.encounter_num := by
  simp only [enc_join, List.mem_flatMap, List.mem_filter, List.mem_map,
    decide_eq_true_eq]
  constructor
  · rintro ⟨w, hw, a, ⟨ha, ha2⟩, rfl⟩
    exact ⟨hw, a, ha, ha2⟩
  · rintro ⟨hw, a, ha, ha2⟩
    exact ⟨v, hw, a, ⟨ha, ha2⟩, rfl⟩

lemma mem_groupMax {α : Type} [DecidableEq α] (rows : List α)
    (key val : α → Int) (k m : Int) :
    (k, m) ∈ groupMax rows key val ↔
      ((∃ r ∈ rows, key r = k) ∧
        m = listMax ((rows.filter (fun r => decide (key r = k))).map val)) := by
  simp only [groupMax, List.mem_map, List.mem_dedup]
  constructor
  · rintro ⟨k2, hk2, heq⟩
    have hk : k2 = k := congrArg Prod.fst heq
    have hm : listMax ((rows.filter
        (fun r => decide (key r = k2))).map val) = m :=
      congrArg Prod.snd heq
    subst hk
    exact ⟨hk2, hm.symm⟩
  · rintro ⟨⟨r, hr, hrk⟩, hm⟩
    exact ⟨k, ⟨r, hr, hrk⟩, by rw [← hm]⟩

/-- Claim C5: for every patient of the patient set (present in the patient
dimension, with at least one visit, encounter ids being a key of the visit
dimension), the encounter query built by `patients_query` returns exactly
the visit record whose start time equals that patient's maximum visit
start time, and when several visits share that maximum start time it
deterministically returns the one with the maximum encounter id. -/
theorem C5_enc_query_most_recent_visit
    (vd : List VisitRow) (pd : List Int) (pset : List PsetRow) (rid p : Int)
    (hu : ∀ v1 ∈ vd, ∀ v2 ∈ vd, v1.encounter_num = v2.encounter_num → v1 = v2)
    (hp : p ∈ pd)
    (hq : ∃ q ∈ pset, q.patient_num = p ∧ q.result_instance_id = rid)
    (hv : ∃ v ∈ vd, v.patient_num = p) :
    (∃ v ∈ enc_q vd pd pset rid, v.patient_num = p ∧
        v.start_date = maxStartOf vd p ∧ v.encounter_num = maxEncAt vd p)
    ∧ ∀ v ∈ vd, ((v ∈ enc_q vd pd pset rid ∧ v.patient_num = p) ↔
        (v.patient_num = p ∧ v.start_date = maxStartOf vd p ∧
          v.encounter_num = maxEncAt vd p)) := by
  have hA : ∀ v : VisitRow,
      (v ∈ lastRows vd pd pset rid ∧ v.patient_num = p)
      ↔ (v ∈ vd ∧ v.patient_num = p) := by
    intro v
    constructor
    · rintro ⟨hl, hp4⟩
      exact ⟨(mem_lastRows.mp hl).1, hp4⟩
    · rintro ⟨hvd, hp4⟩
      obtain ⟨q, hqm, hq1, hq2⟩ := hq
      exact ⟨mem_lastRows.mpr ⟨hvd, by rw [hp4]; exact hp,
        ⟨q, hqm, by rw [hp4]; exact hq1, hq2⟩⟩, hp4⟩
  have hSmem : ∀ x : Int,
      x ∈ ((lastRows vd pd pset rid).filter
        (fun r => decide (r.patient_num = p))).map (fun v => v.start_date)
      ↔ x ∈ ((vd.filter (fun v => decide (v.patient_num = p))).map
        (fun v => v.start_date)) := by
    intro x
    simp only [List.mem_map, List.mem_filter, decide_eq_true_eq]
    constructor
    · rintro ⟨v, ⟨hvl, hvp⟩, hx⟩
      exact ⟨v, ⟨((hA v).mp ⟨hvl, hvp⟩).1, hvp⟩, hx⟩
    · rintro ⟨v, ⟨hvd, hvp⟩, hx⟩
      exact ⟨v, ⟨((hA v).mpr ⟨hvd, hvp⟩).1, hvp⟩, hx⟩
  obtain ⟨v0, hv0, hv0p⟩ := hv
  have hne1 : ((vd.filter (fun v => decide (v.patient_num = p))).map
      (fun v => v.start_date)) ≠ [] :=
    List.ne_nil_of_mem (List.mem_map.mpr ⟨v0,
      List.mem_filter.mpr ⟨hv0, by simp [hv0p]⟩, rfl⟩)
  have hne1l : ((lastRows vd pd pset rid).filter
      (fun r => decide (r.patient_num = p))).map
      (fun v => v.start_date) ≠ [] := by
    intro hnil
    have hx := (hSmem _).mpr (listMax_mem hne1)
    rw [hnil] at hx
    cases hx
  have eqS : listMax (((lastRows vd pd pset rid).filter
        (fun r => decide (r.patient_num = p))).map (fun v => v.start_date))
      = maxStartOf vd p := listMax_congr hne1l hSmem
  have hMs : (p, maxStartOf vd p) ∈ last_q vd pd pset rid :=
    (mem_groupMax (lastRows vd pd pset rid) (fun v => v.patient_num)
        (fun v => v.start_date) p (maxStartOf vd p)).mpr
      ⟨⟨v0, ((hA v0).mpr ⟨hv0, hv0p⟩).1, hv0p⟩, eqS.symm⟩
  have hMuniq : ∀ m : Int, (p, m) ∈ last_q vd pd pset rid →
      m = maxStartOf vd p := by
    intro m hm
    have h2 := ((mem_groupMax (lastRows vd pd pset rid)
        (fun v => v.patient_num) (fun v => v.start_date) p m).mp hm).2
    exact h2.trans eqS
  have hB : ∀ v : VisitRow,
      (v ∈ arbRows vd (last_q vd pd pset rid) ∧ v.patient_num = p)
      ↔ (v ∈ vd ∧ v.patient_num = p ∧ v.start_date = maxStartOf vd p) := by
    intro v
    constructor
    · rintro ⟨hva, hvp⟩
      obtain ⟨hvd, l, hl, hl1, hl2⟩ := mem_arbRows.mp hva
      have hl1' : l.1 = p := by rw [← hl1, hvp]
      have hl' : (p, l.2) = l := by rw [← hl1']
      have hlp : (p, l.2) ∈ last_q vd pd pset rid := by rw [hl']; exact hl
      have hm := hMuniq l.2 hlp
      exact ⟨hvd, hvp, by rw [hl2, hm]⟩
    · rintro ⟨hvd, hvp, hvs⟩
      exact ⟨mem_arbRows.mpr ⟨hvd, (p, maxStartOf vd p), hMs,
        by rw [hvp], by rw [hvs]⟩, hvp⟩
  have hEmem : ∀ x : Int,
      x ∈ ((arbRows vd (last_q vd pd pset rid)).filter
        (fun r => decide (r.patient_num = p))).map (fun v => v.encounter_num)
      ↔ x ∈ ((vd.filter (fun v =>
          decide (v.patient_num = p ∧ v.start_date = maxStartOf vd p))).map
        (fun v => v.encounter_num)) := by
    intro x
    simp only [List.mem_map, List.mem_filter, decide_eq_true_eq]
    constructor
    · rintro ⟨v, ⟨hva, hvp⟩, hx⟩
      obtain ⟨hvd, -, hvs⟩ := (hB v).mp ⟨hva, hvp⟩
      exact ⟨v, ⟨hvd, hvp, hvs⟩, hx⟩
    · rintro ⟨v, ⟨hvd, hvp, hvs⟩, hx⟩
      exact ⟨v, ⟨((hB v).mpr ⟨hvd, hvp, hvs⟩).1, hvp⟩, hx⟩
  have hms_mem : maxStartOf vd p ∈ ((vd.filter
      (fun v => decide (v.patient_num = p))).map (fun v => v.start_date)) :=
    listMax_mem hne1
  obtain ⟨v1, hv1f, hv1s⟩ := List.mem_map.mp hms_mem
  have hv1' := List.mem_filter.mp hv1f
  have hv1p : v1.patient_num = p := by simpa using hv1'.2
  have hv1s' : v1.start_date = maxStartOf vd p := hv1s
  have hne2 : ((vd.filter (fun v =>
      decide (v.patient_num = p ∧ v.start_date = maxStartOf vd p))).map
      (fun v => v.encounter_num)) ≠ [] :=
    List.ne_nil_of_mem (List.mem_map.mpr ⟨v1,
      List.mem_filter.mpr ⟨hv1'.1, by simp [hv1p, hv1s']⟩, rfl⟩)
  have hne2a : ((arbRows vd (last_q vd pd pset rid)).filter
      (fun r => decide (r.patient_num = p))).map
      (fun v => v.encounter_num) ≠ [] := by
    intro hnil
    have hx := (hEmem _).mpr (listMax_mem hne2)
    rw [hnil] at hx
    cases hx
  have eqE : listMax (((arbRows vd (last_q vd pd pset rid)).filter
        (fun r => decide (r.patient_num = p))).map
        (fun v => v.encounter_num))
      = maxEncAt vd p := listMax_congr hne2a hEmem
  have hEs : (p, maxEncAt vd p) ∈ arb_visit_q vd (last_q vd pd pset rid) :=
    (mem_groupMax (arbRows vd (last_q vd pd pset rid))
        (fun v => v.patient_num) (fun v => v.encounter_num) p
        (maxEncAt vd p)).mpr
      ⟨⟨v1, ((hB v1).mpr ⟨hv1'.1, hv1p, hv1s'⟩).1, hv1p⟩, eqE.symm⟩
  have hEuniq : ∀ e : Int,
      (p, e) ∈ arb_visit_q vd (last_q vd pd pset rid) →
      e = maxEncAt vd p := by
    intro e hee
    have h2 := ((mem_groupMax (arbRows vd (last_q vd pd pset rid))
        (fun v => v.patient_num) (fun v => v.encounter_num) p e).mp hee).2
    exact h2.trans eqE
  have harb_elem : ∀ k e : Int,
      (k, e) ∈ arb_visit_q vd (last_q vd pd pset rid) →
      ∃ w ∈ arbRows vd (last_q vd pd pset rid),
        w.patient_num = k ∧ w.encounter_num = e := by
    intro k e hke
    obtain ⟨⟨r, hr, hrk⟩, he⟩ :=
      (mem_groupMax (arbRows vd (last_q vd pd pset rid))
        (fun v => v.patient_num) (fun v => v.encounter_num) k e).mp hke
    have hner : ((arbRows vd (last_q vd pd pset rid)).filter
        (fun w => decide (w.patient_num = k))).map
        (fun v => v.encounter_num) ≠ [] :=
      List.ne_nil_of_mem (List.mem_map.mpr ⟨r,
        List.mem_filter.mpr ⟨hr, by simp [hrk]⟩, rfl⟩)
    have hmem : e ∈ ((arbRows vd (last_q vd pd pset rid)).filter
        (fun w => decide (w.patient_num = k))).map
        (fun v => v.encounter_num) := by
      rw [he]
      exact listMax_mem hner
    obtain ⟨w, hwf, hwe⟩ := List.mem_map.mp hmem
    have hw2 := List.mem_filter.mp hwf
    exact ⟨w, hw2.1, by simpa using hw2.2, hwe⟩
  have hiff : ∀ v ∈ vd, ((v ∈ enc_q vd pd pset rid ∧ v.patient_num = p) ↔
      (v.patient_num = p ∧ v.start_date = maxStartOf vd p ∧
        v.encounter_num = maxEncAt vd p)) := by
    intro v hvd
    constructor
    · rintro ⟨henc, hvp⟩
      obtain ⟨-, a, ha, ha2⟩ := mem_enc_join.mp henc
      obtain ⟨a1, a2⟩ := a
      obtain ⟨w, hw, hwk, hwe⟩ := harb_elem a1 a2 ha
      have hwvd : w ∈ vd := (mem_arbRows.mp hw).1
      have hwv : w = v := hu w hwvd v hvd (by rw [hwe]; exact ha2)
      have hk : a1 = p := by rw [← hwk, hwv, hvp]
      have hap : (p, a2) ∈ arb_visit_q vd (last_q vd pd pset rid) := by
        rw [← hk]
        exact ha
      have he' := hEuniq a2 hap
      have hva : v ∈ arbRows vd (last_q vd pd pset rid) := hwv ▸ hw
      obtain ⟨-, -, hvs⟩ := (hB v).mp ⟨hva, hvp⟩
      exact ⟨hvp, hvs, by rw [← ha2, he']⟩
    · rintro ⟨hvp, hvs, hve⟩
      refine ⟨?_, hvp⟩
      exact mem_enc_join.mpr ⟨hvd, (p, maxEncAt vd p), hEs, by rw [hve]⟩
  refine ⟨?_, hiff⟩
  have hmem2 : maxEncAt vd p ∈ ((vd.filter (fun v =>
      decide (v.patient_num = p ∧ v.start_date = maxStartOf vd p))).map
      (fun v => v.encounter_num)) := listMax_mem hne2
  obtain ⟨v2, hv2f, hv2e⟩ := List.mem_map.mp hmem2
  have hv2' := List.mem_filter.mp hv2f
  have hv2ps : v2.patient_num = p ∧ v2.start_date = maxStartOf vd p := by
    simpa using hv2'.2
  exact ⟨v2, ((hiff v2 hv2'.1).mpr ⟨hv2ps.1, hv2ps.2, hv2e⟩).1,
    hv2ps.1, hv2ps.2, hv2e⟩

/-- Witness for C5: patient 1 has two visits sharing the maximum start
time 100 with encounter ids 10 and 20, plus an older visit; the encounter
query returns the visit with encounter id 20 (the maximum). -/
theorem C5_enc_query_most_recent_visit_witness :
    ((∃ v ∈ enc_q [⟨10, 1, 100⟩, ⟨20, 1, 100⟩, ⟨5, 1, 50⟩] [1] [⟨7, 1⟩] 7,
        v.patient_num = 1 ∧
        v.start_date = maxStartOf [⟨10, 1, 100⟩, ⟨20, 1, 100⟩, ⟨5, 1, 50⟩] 1 ∧
        v.encounter_num = maxEncAt [⟨10, 1, 100⟩, ⟨20, 1, 100⟩, ⟨5, 1, 50⟩] 1)
      ∧ ∀ v ∈ [(⟨10, 1, 100⟩ : VisitRow), ⟨20, 1, 100⟩, ⟨5, 1, 50⟩],
        ((v ∈ enc_q [⟨10, 1, 100⟩, ⟨20, 1, 100⟩, ⟨5, 1, 50⟩] [1] [⟨7, 1⟩] 7
            ∧ v.patient_num = 1) ↔
          (v.patient_num = 1 ∧
            v.start_date
              = maxStartOf [⟨10, 1, 100⟩, ⟨20, 1, 100⟩, ⟨5, 1, 50⟩] 1 ∧
            v.encounter_num
              = maxEncAt [⟨10, 1, 100⟩, ⟨20, 1, 100⟩, ⟨5, 1, 50⟩] 1)))
    ∧ maxStartOf [⟨10, 1, 100⟩, ⟨20, 1, 100⟩, ⟨5, 1, 50⟩] 1 = 100
    ∧ maxEncAt [⟨10, 1, 100⟩, ⟨20, 1, 100⟩, ⟨5, 1, 50⟩] 1 = 20 :=
  ⟨C5_enc_query_most_recent_visit
      [⟨10, 1, 100⟩, ⟨20, 1, 100⟩, ⟨5, 1, 50⟩] [1] [⟨7, 1⟩] 7 1
      (by decide) (by decide) (by decide) (by decide),
    by decide, by decide⟩

/-- Witness for C3: a staging table holding a stale row ends up with
exactly the current call's row; with an empty key list it ends up empty. -/
theorem C3_stage_exactly_current_rows_witness :
    (stage [⟨['s'], ['t']⟩] ⟨[['n']], [['k']]⟩
        = save_concepts_bind ⟨[['n']], [['k']]⟩
      ∧ ((⟨[['n']], [['k']]⟩ : Concepts).keys = [] →
          stage [⟨['s'], ['t']⟩] ⟨[['n']], [['k']]⟩ = []))
    ∧ stage [⟨['s'], ['t']⟩] ⟨[['n']], []⟩ = [] :=
  ⟨C3_stage_exactly_current_rows [⟨['s'], ['t']⟩] ⟨[['n']], [['k']]⟩,
    (C3_stage_exactly_current_rows [⟨['s'], ['t']⟩] ⟨[['n']], []⟩).2 rfl⟩
